import Mathlib

/-
Verification of the saveme-config storage engine against its specification.

The Rust source is shallowly embedded: byte strings (Rust String / Vec<u8>)
become List Nat; the composite "SHA-256 then hex-encode" operation used
throughout the source is a function parameter H : Bytes → Bytes (its
collision resistance enters as an injectivity hypothesis where a theorem
needs it); base64 encoding and decoding are parameters E and D with the
round-trip law D (E x) = x.  HashMap String V becomes an association list
with insert-replaces semantics.  Filesystem writes are carried as explicit
state (the set of blob files written); wall-clock timestamp fields, which
no verification routine reads, are omitted.  A Rust index panic or unwrap
is modelled by an Option layer: none is the panicking run.
-/

namespace SaveMe

/-- Byte strings: Rust String and Vec<u8> values are both byte sequences. -/
abbrev Bytes := List Nat

/-- Little-endian bytes of a u64, as produced by u64::to_le_bytes. -/
def leBytes64 (n : Nat) : Bytes :=
  [n % 256, n / 256 % 256, n / 256 ^ 2 % 256, n / 256 ^ 3 % 256,
   n / 256 ^ 4 % 256, n / 256 ^ 5 % 256, n / 256 ^ 6 % 256, n / 256 ^ 7 % 256]

/-- HashMap lookup (HashMap::get) on the association-list model. -/
def lookupA {α : Type} : List (Bytes × α) → Bytes → Option α
  | [], _ => none
  | (k', v) :: rest, k => if k' = k then some v else lookupA rest k

/-- HashMap insert (HashMap::insert): replaces the binding if the key is present. -/
def insertA {α : Type} : List (Bytes × α) → Bytes → α → List (Bytes × α)
  | [], k, v => [(k, v)]
  | (k', v') :: rest, k, v =>
      if k' = k then (k, v) :: rest else (k', v') :: insertA rest k v

/-- The keys of an association list. -/
def keysA {α : Type} (m : List (Bytes × α)) : List Bytes := m.map Prod.fst

/-- Safe indexing, modelling Rust slice indexing; none is the out-of-bounds panic. -/
def nth? {α : Type} : List α → Nat → Option α
  | [], _ => none
  | x :: _, 0 => some x
  | _ :: xs, n + 1 => nth? xs n

/-- The bytes hashed for an optional previous hash: the Rust code calls
hasher.update(prev) only when the Option is Some, which is the same as
hashing the empty byte string for None. -/
def prevBytes : Option Bytes → Bytes
  | some p => p
  | none => []

/-- ASCII bytes of the format tag string tar.zst. -/
def tarZst : Bytes := [116, 97, 114, 46, 122, 115, 116]

/-- ASCII bytes of the format tag string tar. -/
def tarFmt : Bytes := [116, 97, 114]

/-- src/src-tauri/src/storage/blobs.rs, struct BlobPayload. -/
structure BlobPayload where
  format : Bytes
  sha256 : Bytes
  size : Nat
  b64 : Bytes
  previous_blob_hash : Option Bytes
  blob_chain_hash : Option Bytes
deriving Repr, DecidableEq

/-- blobs.rs BlobPayload::new: hash the data, base64-encode it, leave both
chain fields None.  H is SHA-256 followed by hex encoding, E is base64. -/
def BlobPayload.new (H E : Bytes → Bytes) (format : Bytes) (data : Bytes) : BlobPayload :=
  { format := format
    sha256 := H data
    size := data.length
    b64 := E data
    previous_blob_hash := none
    blob_chain_hash := none }

/-- blobs.rs BlobPayload::calculate_blob_content_hash: SHA-256 over
format bytes, sha256 bytes, size little-endian u64 bytes and b64 bytes. -/
def BlobPayload.calculate_blob_content_hash (b : BlobPayload) (H : Bytes → Bytes) : Bytes :=
  H (b.format ++ b.sha256 ++ leBytes64 b.size ++ b.b64)

/-- The chain hash that both finalize_blob_chain_hash and
verify_blob_integrity compute: SHA-256 over the previous blob hash when
present followed by the content hash. -/
def BlobPayload.expected_chain_hash (b : BlobPayload) (H : Bytes → Bytes) : Bytes :=
  H (prevBytes b.previous_blob_hash ++ b.calculate_blob_content_hash H)

/-- blobs.rs BlobPayload::finalize_blob_chain_hash (always returns Ok). -/
def BlobPayload.finalize_blob_chain_hash (b : BlobPayload) (H : Bytes → Bytes) : BlobPayload :=
  { b with blob_chain_hash := some (b.expected_chain_hash H) }

/-- blobs.rs BlobPayload::verify_blob_integrity: recompute the chain hash
from the stored fields and compare with the stored chain hash; a missing
chain hash means not properly initialized and fails. -/
def BlobPayload.verify_blob_integrity (b : BlobPayload) (H : Bytes → Bytes) : Bool :=
  match b.blob_chain_hash with
  | some stored_hash => stored_hash == b.expected_chain_hash H
  | none => false

/-- src/src-tauri/src/storage/blob_chain.rs, struct BlobChainMetadata.
The last_updated wall-clock timestamp is omitted: no verification routine
reads it. -/
structure BlobChainMetadata where
  blob_positions : List (Bytes × Nat)
  chain_order : List Bytes
  blob_chain_hashes : List (Bytes × Bytes)
  chain_integrity_hash : Bytes
deriving Repr, DecidableEq

/-- blob_chain.rs BlobChainMetadata::new: empty maps and an empty string
integrity hash. -/
def BlobChainMetadata.new : BlobChainMetadata :=
  { blob_positions := []
    chain_order := []
    blob_chain_hashes := []
    chain_integrity_hash := [] }

/-- Concatenation of a list of byte strings, as fed to the hasher by the
for-loop in update_integrity_hash and verify_integrity. -/
def chainConcat (l : List Bytes) : Bytes := l.foldl (fun acc bid => acc ++ bid) []

/-- blob_chain.rs BlobChainMetadata::update_integrity_hash. -/
def BlobChainMetadata.update_integrity_hash (m : BlobChainMetadata)
    (H : Bytes → Bytes) : BlobChainMetadata :=
  { m with chain_integrity_hash := H (chainConcat m.chain_order) }

/-- blob_chain.rs BlobChainMetadata::add_blob: record the position, push
onto chain_order, record the chain hash, recompute the integrity hash. -/
def BlobChainMetadata.add_blob (m : BlobChainMetadata) (H : Bytes → Bytes)
    (blob_id blob_chain_hash : Bytes) : BlobChainMetadata :=
  let position := m.chain_order.length
  ({ m with
      blob_positions := insertA m.blob_positions blob_id position
      chain_order := m.chain_order ++ [blob_id]
      blob_chain_hashes := insertA m.blob_chain_hashes blob_id blob_chain_hash
   }).update_integrity_hash H

/-- blob_chain.rs BlobChainMetadata::verify_integrity. -/
def BlobChainMetadata.verify_integrity (m : BlobChainMetadata) (H : Bytes → Bytes) : Bool :=
  H (chainConcat m.chain_order) == m.chain_integrity_hash

/-- blob_chain.rs BlobChainMetadata::get_previous_blob_chain_hash.  The
outer Option models the Rust index panic on chain_order[position - 1]:
none is the panicking run, some r is a normal return of r. -/
def BlobChainMetadata.get_previous_blob_chain_hash (m : BlobChainMetadata)
    (position : Nat) : Option (Option Bytes) :=
  if position = 0 then
    some none
  else
    match nth? m.chain_order (position - 1) with
    | none => none
    | some prev_blob_id => some (lookupA m.blob_chain_hashes prev_blob_id)

/-- blob_chain.rs BlobChainManager::add_blob_to_chain, restricted to its
effect on the metadata and the blob (the surrounding manager only adds the
storage directory and the encrypted sidecar write).  none is a panicking
or erroring run. -/
def add_blob_to_chain (m : BlobChainMetadata) (H : Bytes → Bytes)
    (blob_id : Bytes) (blob : BlobPayload) : Option (BlobChainMetadata × BlobPayload) :=
  let current_position := m.chain_order.length
  match m.get_previous_blob_chain_hash current_position with
  | none => none
  | some previous_blob_hash =>
    let blob := { blob with previous_blob_hash := previous_blob_hash }
    let blob := blob.finalize_blob_chain_hash H
    match blob.blob_chain_hash with
    | none => none
    | some blob_chain_hash => some (m.add_blob H blob_id blob_chain_hash, blob)

/-- The all-blobs-present check at the top of verify_blob_chain. -/
def allPresent (m : BlobChainMetadata) (blobs : List (Bytes × BlobPayload)) : Bool :=
  m.chain_order.all fun bid => (lookupA blobs bid).isSome

/-- Indices attached by iter().enumerate() starting at k. -/
def enumIdx {α : Type} : Nat → List α → List (Nat × α)
  | _, [] => []
  | k, x :: xs => (k, x) :: enumIdx (k + 1) xs

/-- One iteration of the verification loop in
blob_chain.rs BlobChainManager::verify_blob_chain for chain position i and
blob id blob_id: none is an erroring or panicking run, some false an early
Ok(false) return, some true a pass.  E is base64 encoding and D is base64
decoding with unwrap_or_default collapsed in. -/
def stepCheck (H E D : Bytes → Bytes) (m : BlobChainMetadata)
    (blobs : List (Bytes × BlobPayload)) (i : Nat) (blob_id : Bytes) : Option Bool :=
  match lookupA blobs blob_id with
  | none => none
  | some blob =>
    if blob.verify_blob_integrity H = false then some false
    else
      match m.get_previous_blob_chain_hash i with
      | none => none
      | some expected_prev_hash =>
        if blob.previous_blob_hash = expected_prev_hash then
          let expected_blob := BlobPayload.new H E blob.format (D blob.b64)
          let expected_blob := { expected_blob with previous_blob_hash := expected_prev_hash }
          let expected_blob := expected_blob.finalize_blob_chain_hash H
          match expected_blob.blob_chain_hash with
          | none => none
          | some expected_hash =>
            if blob.blob_chain_hash = some expected_hash then
              match lookupA m.blob_chain_hashes blob_id with
              | some stored_hash =>
                  if stored_hash = expected_hash then some true else some false
              | none => some false
            else some false
        else some false

/-- The enumerate loop of verify_blob_chain: first failing step decides. -/
def verifyLoop (H E D : Bytes → Bytes) (m : BlobChainMetadata)
    (blobs : List (Bytes × BlobPayload)) : List (Nat × Bytes) → Option Bool
  | [] => some true
  | (i, blob_id) :: rest =>
    match stepCheck H E D m blobs i blob_id with
    | none => none
    | some false => some false
    | some true => verifyLoop H E D m blobs rest

/-- blob_chain.rs BlobChainManager::verify_blob_chain: metadata integrity
first, then presence of every chained blob, then the per-blob loop. -/
def verify_blob_chain (H E D : Bytes → Bytes) (m : BlobChainMetadata)
    (blobs : List (Bytes × BlobPayload)) : Option Bool :=
  if m.verify_integrity H = false then some false
  else if allPresent m blobs = false then some false
  else verifyLoop H E D m blobs (enumIdx 0 m.chain_order)

/-- src/src-tauri/src/storage/entry.rs, struct Entry. -/
structure Entry where
  target_hint : Bytes
  logical_path : Bytes
  blob_id : Bytes
  tar_member : Option Bytes
deriving Repr, DecidableEq

/-- src/src-tauri/src/storage/manifest.rs, struct Manifest (the fields;
the snapshot-chain fields read by lib.rs live on ManifestFull below). -/
structure Manifest where
  name : Bytes
  created_at : Bytes
  os_source : Bytes
  entries : List Entry
  blobs : List (Bytes × BlobPayload)
deriving Repr, DecidableEq

/-- The mutable state an ingest call touches: the in-memory manifest, the
snapshot blob-chain sidecar metadata, and the ids of blob files written
under blobs/ (the content store). -/
structure IngestState where
  manifest : Manifest
  chain : BlobChainMetadata
  store : List Bytes
deriving Repr, DecidableEq

/-- manifest.rs Manifest::create_blob_from_file, with the filesystem and
compressor collapsed into inputs: compressed is the compressed tar byte
stream of the source file, src_name its basename, logical its path string,
and dedup the result of find_existing_blob_across_backups on the content
hash (a consultation of the other snapshots on disk).  On a dedup hit the
function only appends an Entry referencing the existing blob id; otherwise
it writes the blob file (idempotently), chains a new BlobPayload and
appends both the blob and an Entry.  none is a panicking or erroring run. -/
def create_blob_from_file (H E : Bytes → Bytes) (dedup : Option (Bytes × Bytes))
    (s : IngestState) (target_hint logical src_name compressed : Bytes) :
    Option IngestState :=
  let content_hash := H compressed
  match dedup with
  | some (_, existing_blob_id) =>
    some { s with manifest := { s.manifest with
      entries := s.manifest.entries ++
        [{ target_hint := target_hint, logical_path := logical,
           blob_id := existing_blob_id, tar_member := some src_name }] } }
  | none =>
    let id := content_hash
    let store := if id ∈ s.store then s.store else s.store ++ [id]
    let blob := BlobPayload.new H E tarZst compressed
    let blob :=
      match s.chain.chain_order.getLast? with
      | some latest_id => { blob with previous_blob_hash := some latest_id }
      | none => blob
    match add_blob_to_chain s.chain H id blob with
    | none => none
    | some (chain, blob) =>
      some { manifest := { s.manifest with
               blobs := insertA s.manifest.blobs id blob
               entries := s.manifest.entries ++
                 [{ target_hint := target_hint, logical_path := logical,
                    blob_id := id, tar_member := some src_name }] }
             chain := chain
             store := store }

/-- manifest.rs Manifest::create_blob_from_directory, collapsed the same
way as create_blob_from_file; the only difference visible at this level is
that the appended entries carry tar_member := none. -/
def create_blob_from_directory (H E : Bytes → Bytes) (dedup : Option (Bytes × Bytes))
    (s : IngestState) (target_hint logical compressed : Bytes) :
    Option IngestState :=
  let content_hash := H compressed
  match dedup with
  | some (_, existing_blob_id) =>
    some { s with manifest := { s.manifest with
      entries := s.manifest.entries ++
        [{ target_hint := target_hint, logical_path := logical,
           blob_id := existing_blob_id, tar_member := none }] } }
  | none =>
    let id := content_hash
    let store := if id ∈ s.store then s.store else s.store ++ [id]
    let blob := BlobPayload.new H E tarZst compressed
    let blob :=
      match s.chain.chain_order.getLast? with
      | some latest_id => { blob with previous_blob_hash := some latest_id }
      | none => blob
    match add_blob_to_chain s.chain H id blob with
    | none => none
    | some (chain, blob) =>
      some { manifest := { s.manifest with
               blobs := insertA s.manifest.blobs id blob
               entries := s.manifest.entries ++
                 [{ target_hint := target_hint, logical_path := logical,
                    blob_id := id, tar_member := none }] }
             chain := chain
             store := store }

/-- Restore failure cases of manifest.rs Manifest::restore_blob_to. -/
inductive RestoreError where
  | missingBlob
  | unknownFormat
  | memberRequired
  | memberNotFound
deriving Repr, DecidableEq

/-- manifest.rs Manifest::restore_blob_to, with I/O collapsed: D is base64
decoding, unzstd is zstd decompression (the streaming and the in-memory
branch compute the same bytes), and tarNames lists the member names of a
tar byte stream.  The source requires tar_member to be present (the
extract_mode=file error) and searches the archive for that member. -/
def restore_blob_to (D unzstd : Bytes → Bytes) (tarNames : Bytes → List Bytes)
    (m : Manifest) (e : Entry) : Except RestoreError Unit :=
  match lookupA m.blobs e.blob_id with
  | none => .error .missingBlob
  | some blob =>
    let raw := D blob.b64
    let tar_bytes :=
      if blob.format = tarFmt then some raw
      else if blob.format = tarZst then some (unzstd raw)
      else none
    match tar_bytes with
    | none => .error .unknownFormat
    | some tb =>
      match e.tar_member with
      | none => .error .memberRequired
      | some member_name =>
        if member_name ∈ tarNames tb then .ok () else .error .memberNotFound

/-- src/src-tauri/src/storage/performance.rs, struct PerformanceConfig. -/
structure PerformanceConfig where
  thread_count : Nat
  max_memory_mb : Nat
  compression_level : Int
  io_buffer_size : Nat
  chunk_size : Nat
  adaptive_compression : Bool
  parallel_dedup : Bool
  max_batch_size : Nat
deriving Repr, DecidableEq

/-- performance.rs PerformanceConfig::get_adaptive_compression_level.  The
Rust match on file_size uses the inclusive ranges 0..=1_048_576,
1_048_577..=10_485_760 and 10_485_761..=104_857_600. -/
def PerformanceConfig.get_adaptive_compression_level (c : PerformanceConfig)
    (file_size : Nat) : Int :=
  if c.adaptive_compression = false then c.compression_level
  else if file_size ≤ 1048576 then c.compression_level
  else if file_size ≤ 10485760 then max (c.compression_level - 2) 6
  else if file_size ≤ 104857600 then max (c.compression_level - 4) 6
  else 6

/-- The size-to-level mapping exactly as the specification words it, with
the floor of 6 applied in every band including the smallest one; kept
separate so it can be compared against the source function. -/
def claimedAdaptiveLevel (c : PerformanceConfig) (file_size : Nat) : Int :=
  if file_size ≤ 1048576 then max c.compression_level 6
  else if file_size ≤ 10485760 then max (c.compression_level - 2) 6
  else if file_size ≤ 104857600 then max (c.compression_level - 4) 6
  else 6

/-- Lexicographic byte-string comparison used to sort by blob_id. -/
def lexLe : Bytes → Bytes → Bool
  | [], _ => true
  | _ :: _, [] => false
  | a :: as, b :: bs => if a < b then true else if b < a then false else lexLe as bs

/-- Insertion into a list sorted by a byte-string key. -/
def insertByKey {α : Type} (key : α → Bytes) (x : α) : List α → List α
  | [] => [x]
  | y :: ys => if lexLe (key x) (key y) then x :: y :: ys else y :: insertByKey key x ys

/-- Insertion sort by a byte-string key, ascending. -/
def sortByKey {α : Type} (key : α → Bytes) : List α → List α
  | [] => []
  | x :: xs => insertByKey key x (sortByKey key xs)

/-- Modelled from the spec: the manifest as serialized to manifest.json in
section 6.2, including the snapshot-chain fields previous_backup_hash and
backup_chain_hash.  The struct revision under src/ lacks these two fields
and the methods below, although lib.rs reads them; they are modelled from
the data-model section of the specification. -/
structure ManifestFull where
  name : Bytes
  created_at : Bytes
  os_source : Bytes
  entries : List Entry
  blobs : List (Bytes × BlobPayload)
  previous_backup_hash : Option Bytes
  backup_chain_hash : Option Bytes
deriving Repr, DecidableEq

/-- The canonical bytes of one entry per specification section 4.7:
blob_id, target_hint, logical_path, and tar_member if present. -/
def entryBytes (e : Entry) : Bytes :=
  e.blob_id ++ e.target_hint ++ e.logical_path ++
    (match e.tar_member with
     | some t => t
     | none => [])

/-- The canonical bytes of one blob-table row per specification section
4.7: blob_id, format, content sha256, and size as little-endian u64. -/
def blobDescBytes (p : Bytes × BlobPayload) : Bytes :=
  p.1 ++ p.2.format ++ p.2.sha256 ++ leBytes64 p.2.size

/-- Modelled from the spec: Manifest::calculate_backup_hash is missing
from src/ (lib.rs calls it); section 4.7 defines the canonical backup hash
as a hash over name, created_at, os_source, the entries sorted by blob_id
ascending, and the blob table sorted by blob_id ascending. -/
def ManifestFull.calculate_backup_hash (m : ManifestFull) (H : Bytes → Bytes) : Bytes :=
  H (m.name ++ m.created_at ++ m.os_source ++
     chainConcat ((sortByKey Entry.blob_id m.entries).map entryBytes) ++
     chainConcat ((sortByKey Prod.fst m.blobs).map blobDescBytes))

/-- Modelled from the spec: Manifest::verify_backup_integrity is missing
from src/ (lib.rs calls it); section 4.7 has it recompute the canonical
backup hash, rehash it against previous_backup_hash (absent for the
genesis snapshot), and compare with the stored backup_chain_hash. -/
def ManifestFull.verify_backup_integrity (m : ManifestFull) (H : Bytes → Bytes) : Bool :=
  m.backup_chain_hash ==
    some (H (prevBytes m.previous_backup_hash ++ m.calculate_backup_hash H))

/-- A snapshot under construction: the sidecar metadata together with the
manifest blobs map that accumulates the finalized payloads. -/
structure ChainState where
  meta : BlobChainMetadata
  blobs : List (Bytes × BlobPayload)
deriving Repr, DecidableEq

/-- The state before the first blob of a snapshot is chained. -/
def initialChainState : ChainState :=
  { meta := BlobChainMetadata.new, blobs := [] }

/-- One ingest step as the pipeline performs it: construct a fresh payload
from the data, chain it with add_blob_to_chain, and insert the finalized
payload into the blobs map under its blob id. -/
def ingestOne (H E : Bytes → Bytes) (s : ChainState)
    (bid fmt data : Bytes) : Option ChainState :=
  match add_blob_to_chain s.meta H bid (BlobPayload.new H E fmt data) with
  | none => none
  | some (meta, blob) => some { meta := meta, blobs := insertA s.blobs bid blob }

/-- A blob chain built by successive add_blob_to_chain calls, one per
input triple (blob id, format, payload data). -/
def buildChain (H E : Bytes → Bytes) : ChainState → List (Bytes × Bytes × Bytes) → Option ChainState
  | s, [] => some s
  | s, (bid, fmt, data) :: rest =>
    match ingestOne H E s bid fmt data with
    | none => none
    | some s' => buildChain H E s' rest

/-- Invariants of a chain under construction: every chained id resolves in
the blobs map, every stored blob is internally consistent, and once the
chain is nonempty the integrity hash is the recomputed one. -/
def goodState (H : Bytes → Bytes) (s : ChainState) : Prop :=
  (∀ bid ∈ s.meta.chain_order, (lookupA s.blobs bid).isSome = true) ∧
  (∀ bid ∈ keysA s.blobs, bid ∈ s.meta.chain_order) ∧
  (∀ bid blob, lookupA s.blobs bid = some blob → blob.verify_blob_integrity H = true) ∧
  (s.meta.chain_order ≠ [] →
    s.meta.chain_integrity_hash = H (chainConcat s.meta.chain_order))

section Lemmas

theorem append_cancel_l {as bs cs : Bytes} (h : as ++ bs = as ++ cs) : bs = cs := by
  induction as with
  | nil => simpa using h
  | cons a as ih =>
      simp only [List.cons_append, List.cons.injEq] at h
      exact ih h.2

theorem lookupA_insertA {α : Type} (m : List (Bytes × α)) (k k' : Bytes) (v : α) :
    lookupA (insertA m k v) k' = if k = k' then some v else lookupA m k' := by
  induction m with
  | nil => simp [insertA, lookupA]
  | cons p rest ih =>
      obtain ⟨k'', v''⟩ := p
      by_cases h : k'' = k
      · subst h
        by_cases h' : k'' = k'
        · subst h'
          simp [insertA, lookupA]
        · simp [insertA, lookupA, h']
      · by_cases h' : k'' = k'
        · subst h'
          have hk2 : ¬ k = k'' := fun e => h e.symm
          simp [insertA, lookupA, h, hk2]
        · simp [insertA, lookupA, h, h', ih]

theorem mem_keysA_of_lookupA {α : Type} {m : List (Bytes × α)} {k : Bytes} {v : α}
    (h : lookupA m k = some v) : k ∈ keysA m := by
  induction m with
  | nil => simp [lookupA] at h
  | cons p rest ih =>
      obtain ⟨k', v'⟩ := p
      by_cases hk : k' = k
      · subst hk; simp [keysA]
      · simp only [lookupA, hk, if_false] at h
        simp [keysA] at ih ⊢
        exact Or.inr (ih h)

theorem keysA_insertA_mem {α : Type} {m : List (Bytes × α)} {k x : Bytes} {v : α}
    (h : x ∈ keysA (insertA m k v)) : x = k ∨ x ∈ keysA m := by
  induction m with
  | nil => simpa [insertA, keysA] using h
  | cons p rest ih =>
      obtain ⟨k', v'⟩ := p
      by_cases hk : k' = k
      · subst hk
        simpa [insertA, keysA] using h
      · simp only [insertA, hk, if_false, keysA, List.map_cons, List.mem_cons] at h
        rcases h with h | h
        · exact Or.inr (by simp [keysA, h])
        · rcases ih h with h' | h'
          · exact Or.inl h'
          · exact Or.inr (by simp [keysA] at h' ⊢; exact Or.inr h')

theorem nth?_isSome {α : Type} {l : List α} {n : Nat} (h : n < l.length) :
    (nth? l n).isSome = true := by
  induction l generalizing n with
  | nil => simp at h
  | cons x xs ih =>
      cases n with
      | zero => simp [nth?]
      | succ n => exact ih (by simpa using h)

theorem verify_finalize (H : Bytes → Bytes) (b : BlobPayload) :
    (b.finalize_blob_chain_hash H).verify_blob_integrity H = true := by
  simp [BlobPayload.finalize_blob_chain_hash, BlobPayload.verify_blob_integrity,
    BlobPayload.expected_chain_hash, BlobPayload.calculate_blob_content_hash]

theorem get_prev_at_len_isSome (m : BlobChainMetadata) :
    (m.get_previous_blob_chain_hash m.chain_order.length).isSome = true := by
  unfold BlobChainMetadata.get_previous_blob_chain_hash
  by_cases hz : m.chain_order.length = 0
  · simp [hz]
  · rw [if_neg hz]
    have hlt : m.chain_order.length - 1 < m.chain_order.length := by omega
    obtain ⟨y, hy⟩ := Option.isSome_iff_exists.mp (nth?_isSome hlt)
    simp [hy]

theorem add_blob_to_chain_eq (m : BlobChainMetadata) (H : Bytes → Bytes)
    (bid : Bytes) (blob : BlobPayload) (prev : Option Bytes)
    (h : m.get_previous_blob_chain_hash m.chain_order.length = some prev) :
    add_blob_to_chain m H bid blob =
      some (m.add_blob H bid
              (({ blob with previous_blob_hash := prev }).expected_chain_hash H),
            ({ blob with previous_blob_hash := prev }).finalize_blob_chain_hash H) := by
  simp [add_blob_to_chain, h, BlobPayload.finalize_blob_chain_hash]

theorem add_blob_to_chain_isSome (m : BlobChainMetadata) (H : Bytes → Bytes)
    (bid : Bytes) (blob : BlobPayload) :
    (add_blob_to_chain m H bid blob).isSome = true := by
  obtain ⟨prev, hprev⟩ := Option.isSome_iff_exists.mp (get_prev_at_len_isSome m)
  rw [add_blob_to_chain_eq m H bid blob prev hprev]
  rfl

theorem add_blob_integrity (m : BlobChainMetadata) (H : Bytes → Bytes)
    (bid bch : Bytes) :
    (m.add_blob H bid bch).chain_integrity_hash =
      H (chainConcat (m.add_blob H bid bch).chain_order) := by
  simp [BlobChainMetadata.add_blob, BlobChainMetadata.update_integrity_hash]

theorem verify_true_iff (H : Bytes → Bytes) (b : BlobPayload) :
    b.verify_blob_integrity H = true ↔
      b.blob_chain_hash = some (b.expected_chain_hash H) := by
  cases h : b.blob_chain_hash with
  | none => simp [BlobPayload.verify_blob_integrity, h]
  | some s => simp [BlobPayload.verify_blob_integrity, h]

theorem expected_chain_hash_tamper_ne (H E D : Bytes → Bytes)
    (hinj : Function.Injective H) (hrt : ∀ x, D (E x) = x)
    (b : BlobPayload) (d' : Bytes) (hne : d' ≠ D b.b64) :
    ({ b with b64 := E d' } : BlobPayload).expected_chain_hash H ≠
      b.expected_chain_hash H := by
  obtain ⟨fmt, sha, sz, b64, p, ch⟩ := b
  intro heq
  simp only [BlobPayload.expected_chain_hash, BlobPayload.calculate_blob_content_hash] at heq
  have h1 := append_cancel_l (hinj heq)
  have h2 := append_cancel_l (hinj h1)
  have h3 : d' = D b64 := by
    have := congrArg D h2
    rwa [hrt] at this
  exact hne h3

theorem tamper_fails (H E D : Bytes → Bytes) (hinj : Function.Injective H)
    (hrt : ∀ x, D (E x) = x) (b : BlobPayload)
    (hv : b.verify_blob_integrity H = true) (d' : Bytes) (hne : d' ≠ D b.b64) :
    ({ b with b64 := E d' } : BlobPayload).verify_blob_integrity H = false := by
  have hch : b.blob_chain_hash = some (b.expected_chain_hash H) :=
    (verify_true_iff H b).mp hv
  have hx := expected_chain_hash_tamper_ne H E D hinj hrt b d' hne
  have hbc : ({ b with b64 := E d' } : BlobPayload).blob_chain_hash = b.blob_chain_hash := rfl
  simp only [BlobPayload.verify_blob_integrity, hbc, hch]
  simp only [beq_eq_false_iff_ne, ne_eq]
  exact fun h => hx h.symm

theorem enumIdx_mem {α : Type} {k : Nat} {l : List α} {q : Nat × α}
    (h : q ∈ enumIdx k l) : q.2 ∈ l ∧ q.1 < k + l.length := by
  induction l generalizing k with
  | nil => simp [enumIdx] at h
  | cons x xs ih =>
      simp only [enumIdx, List.mem_cons] at h
      rcases h with h | h
      · subst h
        exact ⟨by simp, by simp⟩
      · obtain ⟨h1, h2⟩ := ih h
        exact ⟨by simp [h1], by simp; omega⟩

theorem enumIdx_mem_of_mem {α : Type} {x : α} {l : List α} (h : x ∈ l) :
    ∀ k : Nat, ∃ i, (i, x) ∈ enumIdx k l := by
  induction l with
  | nil => simp at h
  | cons y ys ih =>
      intro k
      rcases List.mem_cons.mp h with h | h
      · subst h
        exact ⟨k, by simp [enumIdx]⟩
      · obtain ⟨i, hi⟩ := ih h (k + 1)
        exact ⟨i, by simp [enumIdx, hi]⟩

theorem get_prev_isSome_of_lt {m : BlobChainMetadata} {i : Nat}
    (hi : i < m.chain_order.length) :
    (m.get_previous_blob_chain_hash i).isSome = true := by
  unfold BlobChainMetadata.get_previous_blob_chain_hash
  by_cases h0 : i = 0
  · simp [h0]
  · rw [if_neg h0]
    have hlt : i - 1 < m.chain_order.length := by omega
    obtain ⟨y, hy⟩ := Option.isSome_iff_exists.mp (nth?_isSome hlt)
    simp [hy]

theorem stepCheck_ne_none (H E D : Bytes → Bytes) (m : BlobChainMetadata)
    (blobs : List (Bytes × BlobPayload)) (i : Nat) (bid : Bytes)
    (hlk : (lookupA blobs bid).isSome = true) (hi : i < m.chain_order.length) :
    stepCheck H E D m blobs i bid ≠ none := by
  obtain ⟨blob, hblob⟩ := Option.isSome_iff_exists.mp hlk
  obtain ⟨prev, hprev⟩ := Option.isSome_iff_exists.mp (get_prev_isSome_of_lt hi)
  simp only [stepCheck, hblob]
  split
  · simp
  · split
    · rename_i heq
      rw [heq] at hprev
      cases hprev
    · split
      · split
        · rename_i heq
          simp [BlobPayload.finalize_blob_chain_hash] at heq
        · split
          · split
            · split <;> simp
            · simp
          · simp
      · simp

theorem stepCheck_false (H E D : Bytes → Bytes) (m : BlobChainMetadata)
    (blobs : List (Bytes × BlobPayload)) (i : Nat) (bid : Bytes)
    (blob : BlobPayload) (hblob : lookupA blobs bid = some blob)
    (hv : blob.verify_blob_integrity H = false) :
    stepCheck H E D m blobs i bid = some false := by
  unfold stepCheck
  rw [hblob]
  simp [hv]

theorem verifyLoop_ne_none (H E D : Bytes → Bytes) (m : BlobChainMetadata)
    (blobs : List (Bytes × BlobPayload)) (l : List (Nat × Bytes))
    (hall : ∀ q ∈ l, (lookupA blobs q.2).isSome = true ∧ q.1 < m.chain_order.length) :
    verifyLoop H E D m blobs l ≠ none := by
  induction l with
  | nil => simp [verifyLoop]
  | cons q rest ih =>
      obtain ⟨i, bid⟩ := q
      have h1 := hall (i, bid) (by simp)
      unfold verifyLoop
      cases hs : stepCheck H E D m blobs i bid with
      | none => exact absurd hs (stepCheck_ne_none H E D m blobs i bid h1.1 h1.2)
      | some bb =>
          cases bb with
          | false => simp
          | true => exact ih fun q hq => hall q (List.mem_cons_of_mem _ hq)

theorem verifyLoop_false (H E D : Bytes → Bytes) (m : BlobChainMetadata)
    (blobs : List (Bytes × BlobPayload)) (l : List (Nat × Bytes))
    (hnn : ∀ q ∈ l, stepCheck H E D m blobs q.1 q.2 ≠ none)
    (hex : ∃ q ∈ l, stepCheck H E D m blobs q.1 q.2 = some false) :
    verifyLoop H E D m blobs l = some false := by
  induction l with
  | nil => simp at hex
  | cons q rest ih =>
      obtain ⟨i, bid⟩ := q
      unfold verifyLoop
      cases hs : stepCheck H E D m blobs i bid with
      | none => exact absurd hs (hnn (i, bid) (by simp))
      | some bb =>
          cases bb with
          | false => rfl
          | true =>
              apply ih
              · exact fun q hq => hnn q (List.mem_cons_of_mem _ hq)
              · obtain ⟨q0, hq0, hfalse⟩ := hex
                rcases List.mem_cons.mp hq0 with h | h
                · rw [h] at hfalse
                  rw [hfalse] at hs
                  cases hs
                · exact ⟨q0, h, hfalse⟩

theorem verify_integrity_of_eq {m : BlobChainMetadata} {H : Bytes → Bytes}
    (h : m.chain_integrity_hash = H (chainConcat m.chain_order)) :
    m.verify_integrity H = true := by
  simp [BlobChainMetadata.verify_integrity, h]

theorem allPresent_true {m : BlobChainMetadata} {blobs : List (Bytes × BlobPayload)}
    (h : ∀ bid ∈ m.chain_order, (lookupA blobs bid).isSome = true) :
    allPresent m blobs = true := by
  simp only [allPresent, List.all_eq_true]
  exact fun bid hb => h bid hb

theorem verify_blob_chain_eq_loop {H E D : Bytes → Bytes} {m : BlobChainMetadata}
    {blobs : List (Bytes × BlobPayload)} (h1 : m.verify_integrity H = true)
    (h2 : allPresent m blobs = true) :
    verify_blob_chain H E D m blobs =
      verifyLoop H E D m blobs (enumIdx 0 m.chain_order) := by
  unfold verify_blob_chain
  rw [h1, h2]
  simp

theorem goodState_initial (H : Bytes → Bytes) : goodState H initialChainState := by
  refine ⟨?_, ?_, ?_, ?_⟩ <;>
    simp [initialChainState, BlobChainMetadata.new, keysA, lookupA]

theorem ingestOne_good (H E : Bytes → Bytes) {s s' : ChainState}
    (hg : goodState H s) {bid fmt data : Bytes}
    (h : ingestOne H E s bid fmt data = some s') : goodState H s' := by
  obtain ⟨hpres, hkeys, hver, hint⟩ := hg
  obtain ⟨prev, hprev⟩ := Option.isSome_iff_exists.mp (get_prev_at_len_isSome s.meta)
  unfold ingestOne at h
  rw [add_blob_to_chain_eq s.meta H bid _ prev hprev] at h
  simp only [Option.some.injEq] at h
  subst h
  refine ⟨?_, ?_, ?_, ?_⟩
  · intro x hx
    simp only [BlobChainMetadata.add_blob, BlobChainMetadata.update_integrity_hash,
      List.mem_append, List.mem_singleton] at hx
    rw [lookupA_insertA]
    by_cases hxb : bid = x
    · simp [hxb]
    · rw [if_neg hxb]
      rcases hx with hx | hx
      · exact hpres x hx
      · exact absurd hx.symm hxb
  · intro x hx
    rcases keysA_insertA_mem hx with hx | hx
    · simp [BlobChainMetadata.add_blob, BlobChainMetadata.update_integrity_hash, hx]
    · simp only [BlobChainMetadata.add_blob, BlobChainMetadata.update_integrity_hash,
        List.mem_append, List.mem_singleton]
      exact Or.inl (hkeys x hx)
  · intro x bl hbl
    rw [lookupA_insertA] at hbl
    by_cases hxb : bid = x
    · rw [if_pos hxb] at hbl
      cases hbl
      exact verify_finalize H _
    · rw [if_neg hxb] at hbl
      exact hver x bl hbl
  · intro _
    exact add_blob_integrity s.meta H bid _

theorem buildChain_good (H E : Bytes → Bytes) (inputs : List (Bytes × Bytes × Bytes)) :
    ∀ s s' : ChainState, goodState H s →
      buildChain H E s inputs = some s' → goodState H s' := by
  induction inputs with
  | nil =>
      intro s s' hg h
      simp only [buildChain, Option.some.injEq] at h
      subst h
      exact hg
  | cons t rest ih =>
      intro s s' hg h
      obtain ⟨bid, fmt, data⟩ := t
      unfold buildChain at h
      cases hi : ingestOne H E s bid fmt data with
      | none => rw [hi] at h; cases h
      | some s1 =>
          rw [hi] at h
          exact ih s1 s' (ingestOne_good H E hg hi) h

theorem foldl_add_blob_integrity (H : Bytes → Bytes) :
    ∀ (inputs : List (Bytes × Bytes)) (m : BlobChainMetadata), inputs ≠ [] →
      (List.foldl (fun acc p => acc.add_blob H p.1 p.2) m inputs).chain_integrity_hash =
        H (chainConcat
            (List.foldl (fun acc p => acc.add_blob H p.1 p.2) m inputs).chain_order) := by
  intro inputs
  induction inputs with
  | nil => intro m h; exact absurd rfl h
  | cons p rest ih =>
      intro m _
      simp only [List.foldl_cons]
      by_cases hr : rest = []
      · subst hr
        simp only [List.foldl_nil]
        exact add_blob_integrity m H p.1 p.2
      · exact ih (m.add_blob H p.1 p.2) hr

end Lemmas

section Claims

/-- Claim C1: for every blob chain built by successive add_blob_to_chain
calls and every blob stored in the resulting blob map, replacing that
payload with the base64 encoding of any different byte sequence while
leaving its stored sha256, size, previous_blob_hash, blob_chain_hash and
the sidecar metadata untouched makes verify_blob_chain return false.  The
collision resistance of SHA-256 enters as injectivity of H, and base64
round-tripping as the D-E law. -/
theorem saveme_c1 (H E D : Bytes → Bytes) (hinj : Function.Injective H)
    (hrt : ∀ x, D (E x) = x) (inputs : List (Bytes × Bytes × Bytes))
    (s : ChainState) (hbuild : buildChain H E initialChainState inputs = some s)
    (tid : Bytes) (blob : BlobPayload) (hmem : lookupA s.blobs tid = some blob)
    (d' : Bytes) (hne : d' ≠ D blob.b64) :
    verify_blob_chain H E D s.meta
      (insertA s.blobs tid { blob with b64 := E d' }) = some false := by
  obtain ⟨hpres, hkeys, hver, hint⟩ :=
    buildChain_good H E inputs initialChainState s (goodState_initial H) hbuild
  have htid_chain : tid ∈ s.meta.chain_order := hkeys tid (mem_keysA_of_lookupA hmem)
  have hvb : blob.verify_blob_integrity H = true := hver tid blob hmem
  have htf : ({ blob with b64 := E d' } : BlobPayload).verify_blob_integrity H = false :=
    tamper_fails H E D hinj hrt blob hvb d' hne
  have hlk' : ∀ bid ∈ s.meta.chain_order,
      (lookupA (insertA s.blobs tid { blob with b64 := E d' }) bid).isSome = true := by
    intro bid hb
    rw [lookupA_insertA]
    by_cases h : tid = bid
    · simp [h]
    · rw [if_neg h]
      exact hpres bid hb
  have h1 : s.meta.verify_integrity H = true := by
    refine verify_integrity_of_eq (hint ?_)
    intro hc
    rw [hc] at htid_chain
    simp at htid_chain
  have h2 : allPresent s.meta (insertA s.blobs tid { blob with b64 := E d' }) = true :=
    allPresent_true hlk'
  rw [verify_blob_chain_eq_loop h1 h2]
  have hlt : ∀ q ∈ enumIdx 0 s.meta.chain_order,
      (lookupA (insertA s.blobs tid { blob with b64 := E d' }) q.2).isSome = true ∧
        q.1 < s.meta.chain_order.length := by
    intro q hq
    obtain ⟨hq1, hq2⟩ := enumIdx_mem hq
    exact ⟨hlk' q.2 hq1, by simpa using hq2⟩
  obtain ⟨i0, hi0⟩ := enumIdx_mem_of_mem htid_chain 0
  have hlkt : lookupA (insertA s.blobs tid { blob with b64 := E d' }) tid =
      some { blob with b64 := E d' } := by
    rw [lookupA_insertA]
    simp
  refine verifyLoop_false H E D s.meta _ _ ?_ ?_
  · exact fun q hq =>
      stepCheck_ne_none H E D s.meta _ q.1 q.2 (hlt q hq).1 (hlt q hq).2
  · exact ⟨(i0, tid), hi0, stepCheck_false H E D s.meta _ i0 tid _ hlkt htf⟩

/-- Claim C1 witness: a one-blob chain with payload byte 7, tampered to
payload byte 9, fails verification. -/
theorem saveme_c1_witness :
    verify_blob_chain id id id
      { blob_positions := [([1], 0)], chain_order := [[1]],
        blob_chain_hashes := [([1], [0, 7, 1, 0, 0, 0, 0, 0, 0, 0, 7])],
        chain_integrity_hash := [1] }
      (insertA [([1], ⟨[0], [7], 1, [7], none, some [0, 7, 1, 0, 0, 0, 0, 0, 0, 0, 7]⟩)]
        [1]
        { (⟨[0], [7], 1, [7], none, some [0, 7, 1, 0, 0, 0, 0, 0, 0, 0, 7]⟩ : BlobPayload)
          with b64 := id [9] }) = some false :=
  saveme_c1 id id id Function.injective_id (fun _ => rfl)
    [([1], [0], [7])]
    ⟨{ blob_positions := [([1], 0)], chain_order := [[1]],
       blob_chain_hashes := [([1], [0, 7, 1, 0, 0, 0, 0, 0, 0, 0, 7])],
       chain_integrity_hash := [1] },
     [([1], ⟨[0], [7], 1, [7], none, some [0, 7, 1, 0, 0, 0, 0, 0, 0, 0, 7]⟩)]⟩
    (by decide) [1] ⟨[0], [7], 1, [7], none, some [0, 7, 1, 0, 0, 0, 0, 0, 0, 0, 7]⟩
    (by decide) [9] (by decide)

/-- Claim C2: finalize_blob_chain_hash stores exactly
SHA256(previous_blob_hash followed by the content identity hash
SHA256(format, content sha256, size as little-endian u64, payload
base64)), the previous term being the empty string when absent, and a
finalized blob passes verify_blob_integrity. -/
theorem saveme_c2 (H : Bytes → Bytes) (b : BlobPayload) :
    (b.finalize_blob_chain_hash H).blob_chain_hash =
      some (H (prevBytes b.previous_blob_hash ++
        H (b.format ++ b.sha256 ++ leBytes64 b.size ++ b.b64))) ∧
    (b.finalize_blob_chain_hash H).verify_blob_integrity H = true :=
  ⟨rfl, verify_finalize H b⟩

/-- Claim C3: starting from the empty BlobChainMetadata, after every
nonempty sequence of add_blob calls the stored chain_integrity_hash is
the hash of the blob ids concatenated in chain_order, and
verify_integrity returns true. -/
theorem saveme_c3 (H : Bytes → Bytes) (inputs : List (Bytes × Bytes))
    (hne : inputs ≠ []) :
    (List.foldl (fun acc p => acc.add_blob H p.1 p.2)
        BlobChainMetadata.new inputs).chain_integrity_hash =
      H (chainConcat (List.foldl (fun acc p => acc.add_blob H p.1 p.2)
        BlobChainMetadata.new inputs).chain_order) ∧
    (List.foldl (fun acc p => acc.add_blob H p.1 p.2)
        BlobChainMetadata.new inputs).verify_integrity H = true := by
  have h := foldl_add_blob_integrity H inputs BlobChainMetadata.new hne
  exact ⟨h, verify_integrity_of_eq h⟩

/-- Claim C3 witness: one addition to the empty metadata. -/
theorem saveme_c3_witness :
    ([([1], [2])] : List (Bytes × Bytes)) ≠ [] ∧
    (List.foldl (fun acc p => acc.add_blob id p.1 p.2)
        BlobChainMetadata.new [([1], [2])]).verify_integrity id = true :=
  ⟨by decide, (saveme_c3 id [([1], [2])] (by decide)).2⟩

/-- Claim C4, code bug evidence: on a cross-snapshot deduplication hit
create_blob_from_file appends an Entry whose blob_id (here byte string
42) is not inserted into the manifest blobs map, so invariant M1 fails:
the run here ends with entry blob ids [[42]] but an empty blobs key set,
and restore_blob_to on such an entry errors with missingBlob. -/
theorem saveme_c4_bug :
    (create_blob_from_file id id (some ([9], [42]))
        { manifest := { name := [1], created_at := [2], os_source := [3],
                        entries := [], blobs := [] },
          chain := BlobChainMetadata.new, store := [] }
        [4] [5] [6] [7]).map
      (fun s => (s.manifest.entries.map Entry.blob_id, keysA s.manifest.blobs)) =
      some ([[42]], []) ∧
    restore_blob_to id id (fun _ => [])
      { name := [1], created_at := [2], os_source := [3],
        entries := [{ target_hint := [4], logical_path := [5],
                      blob_id := [42], tar_member := some [6] }], blobs := [] }
      { target_hint := [4], logical_path := [5],
        blob_id := [42], tar_member := some [6] } =
      .error .missingBlob := by
  exact ⟨rfl, rfl⟩

/-- Claim C5: on a deduplication hit, create_blob_from_file and
create_blob_from_directory append exactly one Entry referencing the
existing blob id and change nothing else: the blobs map, the content
store and the blob-chain sidecar state are carried over unchanged. -/
theorem saveme_c5 (H E : Bytes → Bytes) (s : IngestState)
    (backup_name existing_blob_id target_hint logical src_name compressed : Bytes) :
    create_blob_from_file H E (some (backup_name, existing_blob_id)) s
        target_hint logical src_name compressed =
      some { s with manifest := { s.manifest with
        entries := s.manifest.entries ++
          [{ target_hint := target_hint, logical_path := logical,
             blob_id := existing_blob_id, tar_member := some src_name }] } } ∧
    create_blob_from_directory H E (some (backup_name, existing_blob_id)) s
        target_hint logical compressed =
      some { s with manifest := { s.manifest with
        entries := s.manifest.entries ++
          [{ target_hint := target_hint, logical_path := logical,
             blob_id := existing_blob_id, tar_member := none }] } } :=
  ⟨rfl, rfl⟩

/-- Claim C6: verify_backup_integrity recomputes the canonical backup
hash, chains it after previous_backup_hash (absent for a genesis
snapshot), and returns true exactly when the stored backup_chain_hash
equals the recomputed chain hash. -/
theorem saveme_c6 (H : Bytes → Bytes) (m : ManifestFull) :
    m.verify_backup_integrity H = true ↔
      m.backup_chain_hash =
        some (H (prevBytes m.previous_backup_hash ++ m.calculate_backup_hash H)) := by
  simp [ManifestFull.verify_backup_integrity]

/-- Claim C7 counterexample: restore_blob_to rejects an entry whose
tar_member is absent with the extract_mode=file error instead of
extracting the full tree, even when the referenced blob exists and has a
known format. -/
theorem saveme_c7_cex :
    restore_blob_to id id (fun _ => [])
      { name := [1], created_at := [2], os_source := [3],
        entries := [{ target_hint := [2], logical_path := [3],
                      blob_id := [1], tar_member := none }],
        blobs := [([1], ⟨tarZst, [7], 1, [7], none, none⟩)] }
      { target_hint := [2], logical_path := [3], blob_id := [1], tar_member := none } =
      .error .memberRequired := by
  rfl

/-- Claim C7 amended: for every entry whose tar_member is absent and
whose blob resolves with a recognized format, restore_blob_to fails with
the member-required error; the source supports only single-member
extraction. -/
theorem saveme_c7_amended (D unzstd : Bytes → Bytes) (tarNames : Bytes → List Bytes)
    (m : Manifest) (e : Entry) (blob : BlobPayload)
    (hblob : lookupA m.blobs e.blob_id = some blob)
    (hfmt : blob.format = tarFmt ∨ blob.format = tarZst)
    (hmem : e.tar_member = none) :
    restore_blob_to D unzstd tarNames m e = .error .memberRequired := by
  have hzf : tarZst ≠ tarFmt := by decide
  simp only [restore_blob_to, hblob]
  rcases hfmt with h | h
  · simp [h, hmem]
  · rw [h]
    rw [if_neg hzf]
    simp [hmem]

/-- Claim C7 amended witness: the concrete blob and member-free entry of
the counterexample run through the amended statement. -/
theorem saveme_c7_witness :
    lookupA ([([1], (⟨tarZst, [7], 1, [7], none, none⟩ : BlobPayload))]) [1] =
      some (⟨tarZst, [7], 1, [7], none, none⟩ : BlobPayload) ∧
    restore_blob_to id id (fun _ => [[5]])
      { name := [1], created_at := [2], os_source := [3], entries := [],
        blobs := [([1], ⟨tarZst, [7], 1, [7], none, none⟩)] }
      { target_hint := [2], logical_path := [3], blob_id := [1], tar_member := none } =
      .error .memberRequired :=
  ⟨by decide,
   saveme_c7_amended id id (fun _ => [[5]])
     { name := [1], created_at := [2], os_source := [3], entries := [],
       blobs := [([1], ⟨tarZst, [7], 1, [7], none, none⟩)] }
     { target_hint := [2], logical_path := [3], blob_id := [1], tar_member := none }
     ⟨tarZst, [7], 1, [7], none, none⟩ (by decide) (Or.inr rfl) rfl⟩

/-- Claim C8 counterexample: with adaptive compression on and a
configured level of 3, a 500000 byte input gets level 3 from the source
function, while the mapping as the claim words it (floor of 6 in every
band) yields 6. -/
theorem saveme_c8_cex :
    PerformanceConfig.get_adaptive_compression_level
        { thread_count := 4, max_memory_mb := 512, compression_level := 3,
          io_buffer_size := 1024, chunk_size := 4096,
          adaptive_compression := true, parallel_dedup := false,
          max_batch_size := 10 } 500000 = 3 ∧
    claimedAdaptiveLevel
        { thread_count := 4, max_memory_mb := 512, compression_level := 3,
          io_buffer_size := 1024, chunk_size := 4096,
          adaptive_compression := true, parallel_dedup := false,
          max_batch_size := 10 } 500000 = 6 ∧
    (3 : Int) ≠ 6 := by
  refine ⟨by decide, by decide, by decide⟩

/-- Claim C8 amended: with adaptive_compression true the level is the
configured level up to 1 MiB with no floor, the configured level minus 2
floored at 6 up to 10 MiB, minus 4 floored at 6 up to 100 MiB, and 6
above; in particular with level 19 a 50 MiB input gets 15, a 5 MiB input
gets 17 and a 500 KiB input gets 19. -/
theorem saveme_c8_amended (tc mm io ch mb : Nat) (lvl : Int) (pd : Bool) (size : Nat) :
    (PerformanceConfig.mk tc mm lvl io ch true pd mb).get_adaptive_compression_level size =
      (if size ≤ 1048576 then lvl
       else if size ≤ 10485760 then max (lvl - 2) 6
       else if size ≤ 104857600 then max (lvl - 4) 6
       else 6) ∧
    (PerformanceConfig.mk 4 512 19 1024 4096 true false 10).get_adaptive_compression_level
      (50 * 1024 * 1024) = 15 ∧
    (PerformanceConfig.mk 4 512 19 1024 4096 true false 10).get_adaptive_compression_level
      (5 * 1024 * 1024) = 17 ∧
    (PerformanceConfig.mk 4 512 19 1024 4096 true false 10).get_adaptive_compression_level
      (500 * 1024) = 19 := by
  refine ⟨?_, by decide, by decide, by decide⟩
  simp [PerformanceConfig.get_adaptive_compression_level]

/-- Claim C9: a BlobPayload with no blob_chain_hash never passes
verify_blob_integrity, and a blob freshly built by BlobPayload.new has
both chain fields None and fails verification until finalized. -/
theorem saveme_c9 (H E : Bytes → Bytes) (b : BlobPayload) (fmt data : Bytes) :
    (b.blob_chain_hash = none → b.verify_blob_integrity H = false) ∧
    (BlobPayload.new H E fmt data).previous_blob_hash = none ∧
    (BlobPayload.new H E fmt data).blob_chain_hash = none ∧
    (BlobPayload.new H E fmt data).verify_blob_integrity H = false := by
  refine ⟨?_, rfl, rfl, rfl⟩
  intro h
  simp [BlobPayload.verify_blob_integrity, h]

/-- Claim C9 witness: a concrete chainless payload fails verification. -/
theorem saveme_c9_witness :
    (⟨[0], [7], 1, [7], none, none⟩ : BlobPayload).blob_chain_hash = none ∧
    (⟨[0], [7], 1, [7], none, none⟩ : BlobPayload).verify_blob_integrity id = false :=
  ⟨rfl, (saveme_c9 id id ⟨[0], [7], 1, [7], none, none⟩ [0] [7]).1 rfl⟩

/-- Claim C10: get_previous_blob_chain_hash returns None at position 0,
is panic-free for every position between 1 and the chain length, and the
call add_blob_to_chain makes at position chain_order.length always
succeeds. -/
theorem saveme_c10 (H : Bytes → Bytes) (m : BlobChainMetadata) (pos : Nat)
    (bid : Bytes) (blob : BlobPayload) :
    m.get_previous_blob_chain_hash 0 = some none ∧
    (1 ≤ pos → pos ≤ m.chain_order.length →
      (m.get_previous_blob_chain_hash pos).isSome = true) ∧
    (add_blob_to_chain m H bid blob).isSome = true := by
  refine ⟨by simp [BlobChainMetadata.get_previous_blob_chain_hash], ?_,
    add_blob_to_chain_isSome m H bid blob⟩
  intro h1 h2
  by_cases he : pos = m.chain_order.length
  · rw [he]
    exact get_prev_at_len_isSome m
  · exact get_prev_isSome_of_lt (by omega)

/-- Claim C10 witness: a one-element chain at position 1. -/
theorem saveme_c10_witness :
    (1 : Nat) ≤ 1 ∧
    1 ≤ ((⟨[([1], 0)], [[1]], [([1], [2])], [1]⟩ : BlobChainMetadata)).chain_order.length ∧
    ((⟨[([1], 0)], [[1]], [([1], [2])], [1]⟩ :
        BlobChainMetadata).get_previous_blob_chain_hash 1).isSome = true :=
  ⟨by decide, by decide,
   (saveme_c10 id (⟨[([1], 0)], [[1]], [([1], [2])], [1]⟩ : BlobChainMetadata)
      1 [3] ⟨[0], [7], 1, [7], none, none⟩).2.1 (by decide) (by decide)⟩

end Claims

end SaveMe
